import Mathlib

/-!
Verification of the safe-search-params library against its specification.

The library is a typed codec and mutation layer over an ordered, multi-valued
key/value sequence (a query string).  We embed the ordered query sequence as
`List (String × String)`, datatypes as records of `parse`/`serialize`
functions, and each operation of the facade as a pure function on the
sequence.  Fallible operations (throwing code paths) return `Except`.
-/

/-- Result of `parse`: `valid value` or `invalid error` (the source's
`TDtParseOutput` discriminated union). -/
inductive TDtParseOutput (α : Type) where
  | valid (value : α)
  | invalid (error : String)
deriving DecidableEq, Repr

/-- The `valid` flag of a parse result. -/
def TDtParseOutput.isValid {α : Type} : TDtParseOutput α → Bool
  | .valid _ => true
  | .invalid _ => false

/-- View of a parse result dropping the error string: `some` on `valid`,
`none` on `invalid`. -/
def TDtParseOutput.toOption {α : Type} : TDtParseOutput α → Option α
  | .valid v => some v
  | .invalid _ => none

/-- A datatype: a named pair of `parse` and `serialize` (the source's
`TDatatype` interface).  `α` is the logical value type; for the single-valued
datatypes whose TypeScript output type includes `null`, `α` is an `Option`
and `none` embeds the TypeScript `null`. -/
structure TDatatype (α : Type) where
  name : String
  parse : List String → TDtParseOutput α
  serialize : α → List String

/-- The ordered list of raw values stored under key `k`, in sequence order
(models `URLSearchParams.getAll`, which is what the facade's per-key cache
returns: the cache is a transparent memoization of this function). -/
def getAllValues (sp : List (String × String)) (k : String) : List String :=
  (sp.filter (fun e => e.1 = k)).map (fun e => e.2)

/-- Number of occurrences of key `k` in the sequence. -/
def countKey (sp : List (String × String)) (k : String) : Nat :=
  (sp.filter (fun e => e.1 = k)).length

/-- The source's `getInternal`: look the key up and parse the raw values. -/
def getInternal {α : Type} (sp : List (String × String)) (name : String)
    (dt : TDatatype α) : TDtParseOutput α :=
  dt.parse (getAllValues sp name)

/-- The source's `get`: the parsed value on `valid`, the missing-value
sentinel (`none`, TypeScript `null`) on `invalid`. -/
def getParam {α : Type} (sp : List (String × String)) (name : String)
    (dt : TDatatype α) : Option α :=
  match getInternal sp name dt with
  | .valid v => some v
  | .invalid _ => none

/-- Structured data carried by the failure raised from `getOrThrow` (the
source's `TSafeSearchParamsErreurData`). -/
structure TSafeSearchParamsErreurData (α : Type) where
  datatype : TDatatype α
  property : String
  values : List String
  error : String

/-- The raised failure: a human-readable message plus the structured data
(models the `Error` object with its attached erreur-store entry). -/
structure SafeSearchParamsErreur (α : Type) where
  message : String
  data : TSafeSearchParamsErreurData α

/-- The source's `createSafeSearchParamsErreur`: builds the message
`Failed to validate <name> rule for property "<prop>" with values: <vs>. <err>`
and attaches the structured fields. -/
def createSafeSearchParamsErreur {α : Type} (property : String)
    (datatype : TDatatype α) (values : List String) (error : String) :
    SafeSearchParamsErreur α :=
  { message := "Failed to validate " ++ datatype.name ++
      " rule for property \"" ++ property ++ "\" with values: " ++
      String.intercalate ", " values ++ ". " ++ error,
    data := { datatype := datatype, property := property,
              values := values, error := error } }

/-- The source's `getOrThrow`: `Except.error` models the thrown failure. -/
def getOrThrow {α : Type} (sp : List (String × String)) (name : String)
    (dt : TDatatype α) : Except (SafeSearchParamsErreur α) α :=
  match getInternal sp name dt with
  | .valid v => .ok v
  | .invalid err => .error (createSafeSearchParamsErreur name dt (getAllValues sp name) err)

/-- The source's `has`: false when no raw value exists, otherwise the
validity of parsing the full raw-value list. -/
def has {α : Type} (sp : List (String × String)) (name : String)
    (dt : TDatatype α) : Bool :=
  let all := getAllValues sp name
  if all.length = 0 then false
  else (dt.parse all).isValid

/-- The source's `delete`: drop every entry for `name`, order preserved
(`URLSearchParams.delete`). -/
def del (sp : List (String × String)) (name : String) :
    List (String × String) :=
  sp.filter (fun e => ¬ (e.1 = name))

/-- The source's `sort`: stable sort of all entries by key
(`URLSearchParams.sort`).  Keys are compared by Lean's code-point order
where the platform compares UTF-16 code units; the orders differ only on
astral-plane keys and no theorem below depends on the collation. -/
def sortParams (sp : List (String × String)) : List (String × String) :=
  sp.mergeSort (fun a b => a.1 ≤ b.1)

/-- The source's `getFirst` helper: first raw value or `null`. -/
def getFirst (input : List String) : Option String :=
  match input with
  | [] => none
  | x :: _ => some x

/-- The source's `rString` datatype. -/
def rString : TDatatype (Option String) :=
  { name := "String",
    parse := fun input => .valid (getFirst input),
    serialize := fun output =>
      match output with
      | none => []
      | some s => [s] }

/-- Leading decimal digits of a character list. -/
def leadingDigits (cs : List Char) : List Char :=
  cs.takeWhile (fun c => c.isDigit)

/-- Numeric value of a digit list. -/
def digitsToNat (ds : List Char) : Nat :=
  ds.foldl (fun a c => a * 10 + (c.toNat - 48)) 0

/-- Natural number denoted by the leading digits, if any. -/
def leadingNat (cs : List Char) : Option Nat :=
  match leadingDigits cs with
  | [] => none
  | ds => some (digitsToNat ds)

/-- JavaScript `parseInt(s, 10)`: skip leading whitespace, optional sign,
then the leading run of decimal digits; `NaN` (here `none`) when no digit
follows. -/
def jsParseInt (s : String) : Option Int :=
  match s.toList.dropWhile (fun c => c.isWhitespace) with
  | '-' :: rest => (leadingNat rest).map (fun n => -(n : Int))
  | '+' :: rest => (leadingNat rest).map (fun n => (n : Int))
  | cs => (leadingNat cs).map (fun n => (n : Int))

/-- The source's `rInteger` datatype: `parseInt` then a `toFixed` round-trip
check against the original raw string.  The model computes with exact
integers where JavaScript rounds to an IEEE double beyond 2^53; the
divergence affects only such huge inputs, none of which the theorems below
touch. -/
def rInteger : TDatatype (Option Int) :=
  { name := "Integer",
    parse := fun input =>
      match getFirst input with
      | none => .valid none
      | some last =>
        match jsParseInt last with
        | none => .invalid "Invalid integer"
        | some parsed =>
          if toString parsed = last then .valid (some parsed)
          else .invalid "Invalid integer",
    serialize := fun output =>
      match output with
      | none => []
      | some n => [toString n] }

/-- The source's `rPresent` datatype. -/
def rPresent : TDatatype Bool :=
  { name := "Present",
    parse := fun input => .valid (getFirst input).isSome,
    serialize := fun output => if output then [""] else [] }

/-- The source's `rRegex` datatype; the regular expression is embedded by
its `test` function together with its `source` text (used in the name). -/
def rRegex (test : String → Bool) (source : String) :
    TDatatype (Option String) :=
  { name := "Regex<" ++ source ++ ">",
    parse := fun input =>
      match getFirst input with
      | none => .valid none
      | some last =>
        if test last then .valid (some last)
        else .invalid "Invalid value",
    serialize := fun output =>
      match output with
      | none => []
      | some s => [s] }

/-- The source's `rEnum` datatype. -/
def rEnum (values : List String) : TDatatype (Option String) :=
  { name := "Enum<" ++ String.intercalate " | " values ++ ">",
    parse := fun input =>
      match getFirst input with
      | none => .valid none
      | some last =>
        if values.contains last then .valid (some last)
        else .invalid "Invalid value",
    serialize := fun output =>
      match output with
      | none => []
      | some s => [s] }

/-- The parse loop of the source's `rMultiple`: each raw value is parsed as
a singleton list by the wrapped datatype; the first failure aborts with
`Invalid value`. -/
def rMultipleParse {α : Type} (subType : TDatatype α) :
    List String → TDtParseOutput (List α)
  | [] => .valid []
  | v :: rest =>
    match subType.parse [v] with
    | .invalid _ => .invalid "Invalid value"
    | .valid x =>
      match rMultipleParse subType rest with
      | .invalid e => .invalid e
      | .valid xs => .valid (x :: xs)

/-- The source's `rMultiple` combinator. -/
def rMultiple {α : Type} (subType : TDatatype α) : TDatatype (List α) :=
  { name := "Multiple<" ++ subType.name ++ ">",
    parse := rMultipleParse subType,
    serialize := fun output => output.flatMap (fun v => subType.serialize v) }

/-- Own-property lookup in the queues object of `setInternal`.  This models
the JavaScript read `queues[key]` only for keys that are own properties of
the queues object or collide with no `Object.prototype` member; the real
read walks the prototype chain, which `jsRead` below models faithfully. -/
def lookupQ (qs : List (String × List String)) (k : String) :
    Option (List String) :=
  (qs.find? (fun p => p.1 = k)).map (fun p => p.2)

/-- In-place replacement of key `k`'s queue (the effect of `queue.shift()`
on the queues object). -/
def updateQ (qs : List (String × List String)) (k : String)
    (v : List String) : List (String × List String) :=
  qs.map (fun p => if p.1 = k then (p.1, v) else p)

/-- The walk of `setInternal` over the original sequence, threading the
queues: untouched keys keep their entry, a non-empty queue pops its next
value in place, an exhausted queue drops the entry.  Returns the walked
prefix and the final queues.  Built on the own-property read `lookupQ`, so
it captures the intended semantics (spec, merge/update algorithm); the
prototype-chain behavior of the source is `walkJS` below, and
`walkJS_eq_walk` proves the two agree on prototype-safe keys. -/
def walk : List (String × String) → List (String × List String) →
    List (String × String) × List (String × List String)
  | [], qs => ([], qs)
  | e :: rest, qs =>
    match lookupQ qs e.1 with
    | none =>
      let r := walk rest qs
      (e :: r.1, r.2)
    | some [] => walk rest qs
    | some (x :: xt) =>
      let r := walk rest (updateQ qs e.1 xt)
      ((e.1, x) :: r.1, r.2)

/-- The source's `setInternal`: walk the original sequence, then append
every leftover queued value, grouped by key in mapping order. -/
def setInternal (sp : List (String × String))
    (values : List (String × List String)) : List (String × String) :=
  let r := walk sp values
  r.1 ++ r.2.flatMap (fun p => p.2.map (fun v => (p.1, v)))

/-- The source's `set`: serialize one value and merge it under one key. -/
def setParam {α : Type} (sp : List (String × String)) (name : String)
    (dt : TDatatype α) (value : α) : List (String × String) :=
  setInternal sp [(name, dt.serialize value)]

/-- Schema lookup used by `setObj` (JavaScript `obj[name]`). -/
def lookupDt {α : Type} (obj : List (String × TDatatype α)) (name : String) :
    Option (TDatatype α) :=
  (obj.find? (fun p => p.1 = name)).map (fun p => p.2)

/-- The serialization loop of the source's `setObj`: for each supplied
field, resolve its datatype from the schema — a missing schema entry throws
`Type for "<name>" not found in object` — and serialize the value.  The
record write `nextValues[name] = serialized` is modelled as an assoc-list
insert, which matches the JavaScript assignment only for field names that
do not collide with an `Object.prototype` accessor; the faithful write is
`setRecordField`/`serializeFieldsJS` below. -/
def serializeFields {α : Type} (obj : List (String × TDatatype α)) :
    List (String × α) → Except String (List (String × List String))
  | [] => .ok []
  | (name, value) :: rest =>
    match lookupDt obj name with
    | none => .error ("Type for \"" ++ name ++ "\" not found in object")
    | some t =>
      match serializeFields obj rest with
      | .error e => .error e
      | .ok tl => .ok ((name, t.serialize value) :: tl)

/-- The source's `setObj`: serialize every supplied field against the
schema (fatal error on a field missing from the schema), then submit the
combined mapping to `setInternal` in one call. -/
def setObj {α : Type} (sp : List (String × String))
    (obj : List (String × TDatatype α)) (values : List (String × α)) :
    Except String (List (String × String)) :=
  match serializeFields obj values with
  | .error e => .error e
  | .ok nextValues => .ok (setInternal sp nextValues)

/-- Specification-side description of `Multiple` parsing (spec §4.1): apply
the wrapped datatype independently to each raw value as a singleton list;
if any element fails the whole result is `none` (fail closed, no partial
results), otherwise the parsed elements in order. -/
def parseEach {α : Type} (d : TDatatype α) : List String → Option (List α)
  | [] => some []
  | x :: rest =>
    match (d.parse [x]).toOption, parseEach d rest with
    | some v, some vs => some (v :: vs)
    | _, _ => none

/-- C6: `rMultiple(d).parse` applies `d.parse` independently to each
single-element sublist; if any element fails the overall result is
`invalid` with no partial results, otherwise `valid` with the parsed
elements in order — exactly the fail-closed elementwise description
`parseEach`. -/
theorem rMultiple_parse_elementwise {α : Type} (d : TDatatype α)
    (xs : List String) :
    ((rMultiple d).parse xs).toOption = parseEach d xs := by
  induction xs with
  | nil => rfl
  | cons x rest ih =>
    show (rMultipleParse d (x :: rest)).toOption = parseEach d (x :: rest)
    have ih2 : (rMultipleParse d rest).toOption = parseEach d rest := ih
    simp only [rMultipleParse, parseEach, ← ih2]
    cases d.parse [x] with
    | invalid e => simp [TDtParseOutput.toOption]
    | valid v =>
      cases rMultipleParse d rest with
      | invalid e => simp [TDtParseOutput.toOption]
      | valid vs => simp [TDtParseOutput.toOption]

/-- C7: every single-valued datatype (`rString`, `rInteger`, `rPresent`,
`rRegex`, `rEnum`) parses a non-empty raw-value list exactly as it parses
the singleton of its first element: duplicates resolve to first-wins. -/
theorem singleValued_first_wins (x : String) (xs : List String)
    (test : String → Bool) (source : String) (vals : List String) :
    rString.parse (x :: xs) = rString.parse [x] ∧
    rInteger.parse (x :: xs) = rInteger.parse [x] ∧
    rPresent.parse (x :: xs) = rPresent.parse [x] ∧
    (rRegex test source).parse (x :: xs) = (rRegex test source).parse [x] ∧
    (rEnum vals).parse (x :: xs) = (rEnum vals).parse [x] :=
  ⟨rfl, rfl, rfl, rfl, rfl⟩

/-- C4: `get` is exactly the parse of the key's raw-value list with the
error collapsed: the parsed value on `valid`, the missing-value sentinel
`none` on `invalid` — so at this API a parse failure is indistinguishable
from absence of a value. -/
theorem get_eq_parse_toOption {α : Type} (sp : List (String × String))
    (name : String) (dt : TDatatype α) :
    getParam sp name dt = (dt.parse (getAllValues sp name)).toOption := by
  unfold getParam getInternal TDtParseOutput.toOption
  cases dt.parse (getAllValues sp name) <;> rfl

/-- C5: `has` is true iff at least one raw value exists for the key and the
full raw-value list parses successfully; in particular an absent key gives
`false` for every datatype. -/
theorem has_iff {α : Type} (sp : List (String × String)) (name : String)
    (dt : TDatatype α) :
    (has sp name dt = true ↔
      getAllValues sp name ≠ [] ∧
        (dt.parse (getAllValues sp name)).isValid = true) ∧
    (getAllValues sp name = [] → has sp name dt = false) := by
  constructor
  · unfold has
    by_cases h : (getAllValues sp name).length = 0
    · have he : getAllValues sp name = [] := List.length_eq_zero.mp h
      simp [h, he]
    · have hne : getAllValues sp name ≠ [] := by
        intro he
        exact h (by simp [he])
      simp [h, hne]
  · intro h
    unfold has
    simp [h]

/-- Witness for C5 at concrete inputs: a present parseable key gives
`true`, an absent key gives `false`. -/
theorem has_iff_witness :
    has [("a", "1")] "a" rString = true ∧
    has [("x", "y")] "a" rString = false := by
  constructor
  · exact (has_iff [("a", "1")] "a" rString).1.mpr ⟨by decide, by decide⟩
  · exact (has_iff [("x", "y")] "a" rString).2 (by decide)

/-- C9: `sort` is idempotent: sorting an already sorted sequence leaves it
unchanged. -/
theorem sort_idempotent (sp : List (String × String)) :
    sortParams (sortParams sp) = sortParams sp := by
  unfold sortParams
  apply List.mergeSort_of_sorted
  apply List.sorted_mergeSort
  · intro a b c hab hbc
    simp only [decide_eq_true_eq] at *
    exact le_trans hab hbc
  · intro a b
    simp only [Bool.or_eq_true, decide_eq_true_eq]
    exact le_total a.1 b.1

/-- C10: `rMultiple` parses the empty raw-value list to `valid []`, so for
an absent key `get` returns `some []` (the empty array), while the
single-valued datatypes whose output embeds TypeScript `null` return the
valid null (`some none`, observed as `null`) for an absent key. -/
theorem rMultiple_absent_key {α : Type} (d : TDatatype α)
    (test : String → Bool) (source : String) (vals : List String)
    (sp : List (String × String)) (name : String) :
    (rMultiple d).parse [] = .valid [] ∧
    (getAllValues sp name = [] →
      getParam sp name (rMultiple d) = some [] ∧
      getParam sp name rString = some none ∧
      getParam sp name rInteger = some none ∧
      getParam sp name (rRegex test source) = some none ∧
      getParam sp name (rEnum vals) = some none) := by
  refine ⟨rfl, fun h => ?_⟩
  refine ⟨?_, ?_, ?_, ?_, ?_⟩ <;>
    simp [getParam, getInternal, h, rMultiple, rMultipleParse, rString,
      rInteger, rRegex, rEnum, getFirst]

/-- Witness for C10 at a concrete absent key. -/
theorem rMultiple_absent_key_witness :
    getAllValues [("a", "1")] "b" = [] ∧
    getParam [("a", "1")] "b" (rMultiple rString) = some [] ∧
    getParam [("a", "1")] "b" rString = some none := by
  have h := (rMultiple_absent_key rString (fun _ => true) "x" ["v"]
    [("a", "1")] "b").2 (by decide)
  exact ⟨by decide, h.1, h.2.1⟩

/-- C3: `getOrThrow` returns the parsed value (possibly the null sentinel)
exactly when parsing the key's raw-value list succeeds, and otherwise
raises the structured failure carrying `property`, `datatype`, `values`,
`error` and the formatted message. -/
theorem getOrThrow_spec {α : Type} (sp : List (String × String))
    (name : String) (dt : TDatatype α) :
    (∀ v, dt.parse (getAllValues sp name) = .valid v →
      getOrThrow sp name dt = .ok v) ∧
    (∀ err, dt.parse (getAllValues sp name) = .invalid err →
      getOrThrow sp name dt = .error
        { message := "Failed to validate " ++ dt.name ++
            " rule for property \"" ++ name ++ "\" with values: " ++
            String.intercalate ", " (getAllValues sp name) ++ ". " ++ err,
          data := { datatype := dt, property := name,
                    values := getAllValues sp name, error := err } }) := by
  constructor
  · intro v h
    unfold getOrThrow getInternal
    rw [h]
  · intro err h
    unfold getOrThrow getInternal
    rw [h]
    rfl

/-- Witness for C3 at concrete inputs: parsing `hey` as an integer throws
the formatted failure; a valid parse (of the null sentinel) returns it. -/
theorem getOrThrow_spec_witness :
    getOrThrow [("c", "hey")] "c" rInteger = .error
      { message :=
          "Failed to validate Integer rule for property \"c\" with values: hey. Invalid integer",
        data := { datatype := rInteger, property := "c",
                  values := ["hey"], error := "Invalid integer" } } ∧
    getOrThrow [("c", "hey")] "d" rString = .ok none := by
  constructor
  · exact (getOrThrow_spec [("c", "hey")] "c" rInteger).2 "Invalid integer" rfl
  · exact (getOrThrow_spec [("c", "hey")] "d" rString).1 none rfl

/-- The merge walk against a single exhausted-from-the-start queue keeps
exactly the entries of other keys and leaves the queue in place. -/
theorem walk_single_empty (name : String) (sp : List (String × String)) :
    walk sp [(name, ([] : List String))] =
      (sp.filter (fun e => ¬ (e.1 = name)), [(name, ([] : List String))]) := by
  induction sp with
  | nil => rfl
  | cons e rest ih =>
    by_cases h : name = e.1
    · have hl : lookupQ [(name, ([] : List String))] e.1 = some [] := by
        simp [lookupQ, h]
      simp only [walk, hl, ih, List.filter_cons]
      simp [h.symm]
    · have hl : lookupQ [(name, ([] : List String))] e.1 = none := by
        simp [lookupQ, h]
      simp only [walk, hl, ih, List.filter_cons]
      have h2 : ¬ (e.1 = name) := fun hh => h hh.symm
      simp [h2]

/-- On the own-property model, setting a value whose serialization is the
empty raw-value list produces exactly the sequence `delete` produces.
This is the intended semantics; `set_empty_proto_key_code_bug` shows the
source deviates from it on sequences whose keys collide with
`Object.prototype` members. -/
theorem set_empty_serialize_eq_del {α : Type} (sp : List (String × String))
    (name : String) (dt : TDatatype α) (v : α)
    (h : dt.serialize v = []) :
    setParam sp name dt v = del sp name := by
  unfold setParam
  rw [h]
  unfold setInternal del
  rw [walk_single_empty]
  simp

/-- Concrete instance of the empty-serialization/delete agreement:
`rString` serializes the null sentinel to the empty list, and setting it
equals deleting the key. -/
theorem set_empty_serialize_eq_del_witness :
    rString.serialize none = [] ∧
    setParam [("a", "1"), ("b", "2")] "a" rString none =
      del [("a", "1"), ("b", "2")] "a" :=
  ⟨rfl, set_empty_serialize_eq_del [("a", "1"), ("b", "2")] "a" rString none rfl⟩

/-- When every supplied field has a schema entry, the serialization loop of
`setObj` succeeds with each field serialized by its schema datatype. -/
theorem serializeFields_ok {α : Type} (obj : List (String × TDatatype α)) :
    ∀ values : List (String × α),
      (∀ p ∈ values, (lookupDt obj p.1).isSome = true) →
      serializeFields obj values = .ok (values.map (fun p =>
        (p.1, ((lookupDt obj p.1).map (fun t => t.serialize p.2)).getD []))) := by
  intro values
  induction values with
  | nil => intro _; rfl
  | cons q rest ih =>
    intro h
    obtain ⟨nm, vv⟩ := q
    obtain ⟨t, ht⟩ := Option.isSome_iff_exists.mp (h (nm, vv) (by simp))
    simp only [serializeFields]
    rw [ht, ih (fun p hp => h p (by simp [hp]))]
    simp [ht]

/-- A supplied field missing from the schema makes the serialization loop
of `setObj` fail. -/
theorem serializeFields_err {α : Type} (obj : List (String × TDatatype α)) :
    ∀ values : List (String × α),
      (∃ p ∈ values, lookupDt obj p.1 = none) →
      ∃ e, serializeFields obj values = .error e := by
  intro values
  induction values with
  | nil =>
    rintro ⟨p, hp, _⟩
    cases hp
  | cons q rest ih =>
    rintro ⟨p, hp, hnone⟩
    obtain ⟨nm, vv⟩ := q
    simp only [serializeFields]
    cases hl : lookupDt obj nm with
    | none => exact ⟨_, rfl⟩
    | some t =>
      rcases List.mem_cons.mp hp with heq | hmem
      · rw [heq] at hnone
        rw [hnone] at hl
        cases hl
      · obtain ⟨e, he⟩ := ih ⟨p, hmem, hnone⟩
        rw [he]
        exact ⟨e, rfl⟩

/-- On the own-property model of the record writes, `setObj` fails with a
fatal error whenever a supplied field has no schema entry (no update is
applied), and otherwise serializes all fields and submits them as one
combined mapping to `setInternal`.  This is the intended semantics;
`setObj_proto_field_code_bug` shows the source deviates for a field named
`__proto__`. -/
theorem setObj_spec {α : Type} (sp : List (String × String))
    (obj : List (String × TDatatype α)) (values : List (String × α)) :
    ((∃ p ∈ values, lookupDt obj p.1 = none) →
      ∃ e, setObj sp obj values = .error e) ∧
    ((∀ p ∈ values, (lookupDt obj p.1).isSome = true) →
      setObj sp obj values = .ok (setInternal sp (values.map (fun p =>
        (p.1, ((lookupDt obj p.1).map (fun t => t.serialize p.2)).getD []))))) := by
  constructor
  · intro h
    obtain ⟨e, he⟩ := serializeFields_err obj values h
    refine ⟨e, ?_⟩
    unfold setObj
    rw [he]
  · intro h
    unfold setObj
    rw [serializeFields_ok obj values h]

/-- Concrete instance of the own-property `setObj` behavior: a field
outside the schema aborts; fields inside the schema are merged in one
`setInternal` call. -/
theorem setObj_spec_witness :
    (∃ e, setObj [("a", "1")] [("a", rString)]
      [("b", (none : Option String))] = .error e) ∧
    setObj [("a", "1")] [("a", rString)] [("a", some "3")] =
      .ok [("a", "3")] := by
  constructor
  · exact (setObj_spec [("a", "1")] [("a", rString)]
      [("b", (none : Option String))]).1 ⟨("b", none), by simp, rfl⟩
  · have h := (setObj_spec [("a", "1")] [("a", rString)]
      [("a", some "3")]).2 (by decide)
    rw [h]
    rfl

/-- Occurrence counter bumped at one key. -/
def bump (seen : String → Nat) (k : String) : String → Nat :=
  fun k2 => if k2 = k then seen k2 + 1 else seen k2

/-- Specification-side description of the merge walk (spec §4.4, stated by
occurrence index rather than by mutable queues): an entry of an untouched
key is kept verbatim; the i-th original occurrence of an updated key is
replaced in place by the i-th new value when it exists and dropped
otherwise. -/
def specWalk (values : List (String × List String)) :
    List (String × String) → (String → Nat) → List (String × String)
  | [], _ => []
  | e :: rest, seen =>
    match lookupQ values e.1 with
    | none => e :: specWalk values rest seen
    | some vs =>
      match vs[seen e.1]? with
      | some x => (e.1, x) :: specWalk values rest (bump seen e.1)
      | none => specWalk values rest (bump seen e.1)

/-- Specification-side description of the whole merge/update (spec §4.4):
the occurrence-indexed walk, then for every updated key, in mapping order,
the new values beyond the key's original occurrence count appended at the
end. -/
def specSetInternal (sp : List (String × String))
    (values : List (String × List String)) : List (String × String) :=
  specWalk values sp (fun _ => 0) ++
    values.flatMap (fun p =>
      (p.2.drop (countKey sp p.1)).map (fun v => (p.1, v)))

/-- The queues after each key's first `seen k` new values were consumed. -/
def mapDrop (values : List (String × List String)) (seen : String → Nat) :
    List (String × List String) :=
  values.map (fun p => (p.1, p.2.drop (seen p.1)))

theorem lookupQ_mapDrop (values : List (String × List String))
    (seen : String → Nat) (k : String) :
    lookupQ (mapDrop values seen) k =
      (lookupQ values k).map (fun vs => vs.drop (seen k)) := by
  induction values with
  | nil => rfl
  | cons p rest ih =>
    by_cases h : p.1 = k
    · simp [lookupQ, mapDrop, List.find?_cons, h]
    · simp only [lookupQ, mapDrop, List.map_cons, List.find?_cons] at ih ⊢
      simp only [h, decide_eq_true_eq]
      simpa using ih

theorem lookupQ_eq_none_iff (qs : List (String × List String)) (k : String) :
    lookupQ qs k = none ↔ ∀ p ∈ qs, ¬ (p.1 = k) := by
  unfold lookupQ
  simp [List.find?_eq_none]

theorem lookupQ_isSome_of_mem (qs : List (String × List String))
    (p : String × List String) (hp : p ∈ qs) :
    (lookupQ qs p.1).isSome = true := by
  have h1 : (List.find? (fun q => q.1 = p.1) qs).isSome = true :=
    List.find?_isSome.mpr ⟨p, hp, by simp⟩
  obtain ⟨q, hq⟩ := Option.isSome_iff_exists.mp h1
  unfold lookupQ
  rw [hq]
  rfl

theorem eq_of_mem_nodup_lookupQ (values : List (String × List String))
    (k : String) (vs : List String) (hnd : (values.map Prod.fst).Nodup)
    (h : lookupQ values k = some vs) :
    ∀ p ∈ values, p.1 = k → p.2 = vs := by
  intro p hp hk
  unfold lookupQ at h
  obtain ⟨q, hq, hq2⟩ := Option.map_eq_some'.mp h
  have hqmem : q ∈ values := List.mem_of_find?_eq_some hq
  have hqk : q.1 = k := by
    have := List.find?_some hq
    simpa using this
  have : p = q := List.inj_on_of_nodup_map hnd hp hqmem (by rw [hk, hqk])
  rw [this, hq2]

theorem lookupQ_of_mem_nodup (values : List (String × List String))
    (k : String) (vs : List String) (hnd : (values.map Prod.fst).Nodup)
    (hmem : (k, vs) ∈ values) :
    lookupQ values k = some vs := by
  have hs : (lookupQ values k).isSome = true :=
    lookupQ_isSome_of_mem values (k, vs) hmem
  obtain ⟨vs', h'⟩ := Option.isSome_iff_exists.mp hs
  have : (k, vs).2 = vs' :=
    eq_of_mem_nodup_lookupQ values k vs' hnd h' (k, vs) hmem rfl
  rw [h', ← this]

theorem countKey_cons (e : String × String) (rest : List (String × String))
    (k : String) :
    countKey (e :: rest) k =
      countKey rest k + (if e.1 = k then 1 else 0) := by
  unfold countKey
  by_cases h : e.1 = k <;> simp [List.filter_cons, h]

theorem mapDrop_congr (values : List (String × List String))
    (f g : String → Nat)
    (h : ∀ p ∈ values, p.2.drop (f p.1) = p.2.drop (g p.1)) :
    mapDrop values f = mapDrop values g := by
  unfold mapDrop
  apply List.map_congr_left
  intro p hp
  rw [h p hp]

theorem updateQ_mapDrop (values : List (String × List String))
    (seen : String → Nat) (k : String) (vs : List String)
    (hnd : (values.map Prod.fst).Nodup) (h : lookupQ values k = some vs) :
    updateQ (mapDrop values seen) k (vs.drop (seen k + 1)) =
      mapDrop values (bump seen k) := by
  unfold updateQ mapDrop
  rw [List.map_map]
  apply List.map_congr_left
  intro p hp
  by_cases hk : p.1 = k
  · have hv : p.2 = vs := eq_of_mem_nodup_lookupQ values k vs hnd h p hp hk
    simp [Function.comp, hk, hv, bump]
  · simp [Function.comp, hk, bump]

theorem mapDrop_bump_count (values : List (String × List String))
    (seen : String → Nat) (e : String × String)
    (rest : List (String × String)) :
    mapDrop values (fun k => bump seen e.1 k + countKey rest k) =
      mapDrop values (fun k => seen k + countKey (e :: rest) k) := by
  apply mapDrop_congr
  intro p hp
  congr 1
  rw [countKey_cons]
  by_cases hk : p.1 = e.1
  · rw [hk]
    simp only [bump, if_true, eq_self_iff_true]
    omega
  · have h2 : ¬ (e.1 = p.1) := fun hh => hk hh.symm
    simp only [bump]
    rw [if_neg hk, if_neg h2]
    omega

theorem mapDrop_count_untouched (values : List (String × List String))
    (seen : String → Nat) (e : String × String)
    (rest : List (String × String))
    (he : ∀ p ∈ values, ¬ (p.1 = e.1)) :
    mapDrop values (fun k => seen k + countKey rest k) =
      mapDrop values (fun k => seen k + countKey (e :: rest) k) := by
  apply mapDrop_congr
  intro p hp
  congr 1
  rw [countKey_cons]
  have : ¬ (e.1 = p.1) := fun hh => he p hp hh.symm
  simp [this]

/-- The queue-based walk of `setInternal`, started on queues with `seen k`
values already consumed per key, computes the occurrence-indexed walk of
the specification and leaves each key's queue advanced by its occurrence
count. -/
theorem walk_mapDrop (values : List (String × List String))
    (hnd : (values.map Prod.fst).Nodup) :
    ∀ (sp : List (String × String)) (seen : String → Nat),
      walk sp (mapDrop values seen) =
        (specWalk values sp seen,
         mapDrop values (fun k => seen k + countKey sp k)) := by
  intro sp
  induction sp with
  | nil =>
    intro seen
    rfl
  | cons e rest ih =>
    intro seen
    simp only [walk, lookupQ_mapDrop]
    cases h : lookupQ values e.1 with
    | none =>
      simp only [Option.map_none']
      rw [ih seen]
      have he : ∀ p ∈ values, ¬ (p.1 = e.1) :=
        (lookupQ_eq_none_iff values e.1).mp h
      rw [show specWalk values (e :: rest) seen
            = e :: specWalk values rest seen from by simp [specWalk, h]]
      rw [mapDrop_count_untouched values seen e rest he]
    | some vs =>
      simp only [Option.map_some']
      cases hv : vs.drop (seen e.1) with
      | nil =>
        change walk rest (mapDrop values seen) = _
        have hdropnil : vs.drop (seen e.1 + 1) = [] := by
          rw [← List.tail_drop, hv]
          rfl
        have hmd : mapDrop values seen = mapDrop values (bump seen e.1) := by
          apply mapDrop_congr
          intro p hp
          by_cases hk : p.1 = e.1
          · have hv2 : p.2 = vs :=
              eq_of_mem_nodup_lookupQ values e.1 vs hnd h p hp hk
            have hb : bump seen e.1 p.1 = seen e.1 + 1 := by
              simp [bump, hk]
            rw [hv2, hb, hk, hv, hdropnil]
          · simp [bump, hk]
        rw [hmd, ih (bump seen e.1)]
        have hlen : vs.length ≤ seen e.1 := List.drop_eq_nil_iff.mp hv
        have hget : vs[seen e.1]? = none := List.getElem?_eq_none hlen
        rw [show specWalk values (e :: rest) seen
              = specWalk values rest (bump seen e.1) from by
            simp [specWalk, h, hget]]
        rw [mapDrop_bump_count values seen e rest]
      | cons x xt =>
        change ((e.1, x) :: (walk rest (updateQ (mapDrop values seen) e.1 xt)).1,
          (walk rest (updateQ (mapDrop values seen) e.1 xt)).2) = _
        have hxt : xt = vs.drop (seen e.1 + 1) := by
          rw [← List.tail_drop, hv]
          rfl
        rw [hxt, updateQ_mapDrop values seen e.1 vs hnd h,
          ih (bump seen e.1)]
        have hget : vs[seen e.1]? = some x := by
          rw [← List.head?_drop, hv]
          rfl
        rw [show specWalk values (e :: rest) seen
              = (e.1, x) :: specWalk values rest (bump seen e.1) from by
            simp [specWalk, h, hget]]
        rw [mapDrop_bump_count values seen e rest]

/-- `setInternal` computes exactly the specification's occurrence-indexed
description: a single walk replacing each updated key's i-th occurrence in
place, followed by the surplus new values appended grouped by key in
mapping order. -/
theorem setInternal_eq_specSetInternal (sp : List (String × String))
    (values : List (String × List String))
    (hnd : (values.map Prod.fst).Nodup) :
    setInternal sp values = specSetInternal sp values := by
  unfold setInternal specSetInternal
  have h0 : mapDrop values (fun _ => 0) = values := by
    unfold mapDrop
    simp
  rw [show walk sp values = walk sp (mapDrop values (fun _ => 0)) from by
      rw [h0]]
  rw [walk_mapDrop values hnd sp (fun _ => 0)]
  unfold mapDrop
  simp [List.flatMap_map]

/-- Raw values of a key in a cons sequence. -/
theorem getAllValues_cons (e : String × String) (w : List (String × String))
    (k : String) :
    getAllValues (e :: w) k =
      if e.1 = k then e.2 :: getAllValues w k else getAllValues w k := by
  unfold getAllValues
  by_cases h : e.1 = k <;> simp [List.filter_cons, h]

/-- Raw values of a key distribute over appending sequences. -/
theorem getAllValues_append (a b : List (String × String)) (k : String) :
    getAllValues (a ++ b) k = getAllValues a k ++ getAllValues b k := by
  unfold getAllValues
  rw [List.filter_append, List.map_append]

/-- Raw values of a key absent from every entry. -/
theorem getAllValues_eq_nil (w : List (String × String)) (k : String)
    (h : ∀ p ∈ w, ¬ (p.1 = k)) : getAllValues w k = [] := by
  unfold getAllValues
  rw [List.filter_eq_nil_iff.mpr (by simpa using h)]
  rfl

/-- Raw values of the key of a constant-key section. -/
theorem getAllValues_keyMap (nm : String) (l : List String) :
    getAllValues (l.map (fun v => (nm, v))) nm = l := by
  induction l with
  | nil => rfl
  | cons x rest ih => simp [getAllValues_cons, ih]

/-- In the occurrence-indexed walk, the raw values kept for an updated key
are the new values from index `seen k` on, capped by the key's occurrence
count. -/
theorem getAllValues_specWalk (values : List (String × List String))
    (k : String) (vs : List String) (h : lookupQ values k = some vs) :
    ∀ (sp : List (String × String)) (seen : String → Nat),
      getAllValues (specWalk values sp seen) k =
        (vs.drop (seen k)).take (countKey sp k) := by
  intro sp
  induction sp with
  | nil =>
    intro seen
    simp [specWalk, getAllValues, countKey]
  | cons e rest ih =>
    intro seen
    by_cases hek : e.1 = k
    · have h' : lookupQ values e.1 = some vs := by
        rw [hek]
        exact h
      simp only [specWalk, h']
      cases hget : vs[seen e.1]? with
      | some x =>
        rw [getAllValues_cons]
        simp only [if_pos hek]
        rw [ih (bump seen e.1)]
        have hb : bump seen e.1 k = seen k + 1 := by
          simp only [bump]
          rw [if_pos hek.symm]
        rw [hb, countKey_cons, if_pos hek]
        rw [hek] at hget
        obtain ⟨hlt, hx⟩ := List.getElem?_eq_some.mp hget
        rw [List.drop_eq_getElem_cons hlt, List.take_succ_cons, hx]
      | none =>
        rw [ih (bump seen e.1)]
        have hlen : vs.length ≤ seen e.1 := by
          by_contra hc
          rw [List.getElem?_eq_getElem (by omega)] at hget
          cases hget
        have h1 : vs.drop (seen k) = [] := by
          rw [List.drop_eq_nil_iff]
          rw [hek] at hlen
          exact hlen
        have h2 : vs.drop (bump seen e.1 k) = [] := by
          rw [List.drop_eq_nil_iff]
          have hb : bump seen e.1 k = seen k + 1 := by
            simp only [bump]
            rw [if_pos hek.symm]
          rw [hb]
          rw [hek] at hlen
          omega
        rw [h1, h2]
        simp
    · cases hl : lookupQ values e.1 with
      | none =>
        simp only [specWalk, hl]
        rw [getAllValues_cons]
        simp only [if_neg hek]
        rw [ih seen, countKey_cons, if_neg hek]
        rfl
      | some vs' =>
        simp only [specWalk, hl]
        have hb : bump seen e.1 k = seen k := by
          simp only [bump]
          rw [if_neg (fun hh => hek (Eq.symm hh))]
        cases hget : vs'[seen e.1]? with
        | some x =>
          rw [getAllValues_cons]
          simp only [if_neg hek]
          rw [ih (bump seen e.1), hb, countKey_cons, if_neg hek]
          rfl
        | none =>
          rw [ih (bump seen e.1), hb, countKey_cons, if_neg hek]
          rfl

/-- In the appended leftover section, the raw values for an updated key are
its new values beyond the occurrence count. -/
theorem getAllValues_flatMap_drop (k : String) (vs : List String) :
    ∀ (values : List (String × List String)) (c : String → Nat),
      (values.map Prod.fst).Nodup → (k, vs) ∈ values →
      getAllValues (values.flatMap (fun p =>
        (p.2.drop (c p.1)).map (fun v => (p.1, v)))) k = vs.drop (c k) := by
  intro values
  induction values with
  | nil =>
    intro c _ hmem
    cases hmem
  | cons q rest ih =>
    intro c hnd hmem
    obtain ⟨nm, vl⟩ := q
    rw [List.flatMap_cons, getAllValues_append]
    have hnd2 : (rest.map Prod.fst).Nodup := (List.nodup_cons.mp hnd).2
    have hnotin : nm ∉ rest.map Prod.fst := (List.nodup_cons.mp hnd).1
    by_cases hk : nm = k
    · have hvl : vl = vs := by
        rcases List.mem_cons.mp hmem with heq | hmem2
        · cases heq
          rfl
        · exfalso
          have hkmem : k ∈ rest.map Prod.fst :=
            List.mem_map_of_mem Prod.fst hmem2
          rw [hk] at hnotin
          exact hnotin hkmem
      have h1 : getAllValues ((vl.drop (c nm)).map (fun v => (nm, v))) k
          = vl.drop (c nm) := by
        rw [hk, getAllValues_keyMap]
      have h2 : getAllValues (rest.flatMap (fun p =>
          (p.2.drop (c p.1)).map (fun v => (p.1, v)))) k = [] := by
        apply getAllValues_eq_nil
        intro p hp
        obtain ⟨q2, hq2, hpq⟩ := List.mem_flatMap.mp hp
        obtain ⟨v, _, hv⟩ := List.mem_map.mp hpq
        intro hpk
        rw [← hv] at hpk
        apply hnotin
        rw [hk]
        rw [← hpk]
        exact List.mem_map_of_mem Prod.fst hq2
      rw [h1, h2, hvl, hk]
      simp
    · have h1 : getAllValues ((vl.drop (c nm)).map (fun v => (nm, v))) k
          = [] := by
        apply getAllValues_eq_nil
        intro p hp
        obtain ⟨v, _, hv⟩ := List.mem_map.mp hp
        rw [← hv]
        exact hk
      have hmem2 : (k, vs) ∈ rest := by
        rcases List.mem_cons.mp hmem with heq | hmem2
        · exfalso
          apply hk
          have := congrArg Prod.fst heq
          exact this.symm
        · exact hmem2
      rw [h1, ih c hnd2 hmem2]
      rfl

/-- The occurrence-indexed walk keeps the entries of untouched keys
verbatim and in order. -/
theorem specWalk_untouched (values : List (String × List String)) :
    ∀ (sp : List (String × String)) (seen : String → Nat),
      (specWalk values sp seen).filter
        (fun e => (lookupQ values e.1).isNone) =
        sp.filter (fun e => (lookupQ values e.1).isNone) := by
  intro sp
  induction sp with
  | nil =>
    intro seen
    rfl
  | cons e rest ih =>
    intro seen
    cases hl : lookupQ values e.1 with
    | none =>
      simp only [specWalk, hl]
      rw [List.filter_cons, List.filter_cons]
      simp [hl, ih seen]
    | some vs =>
      simp only [specWalk, hl]
      cases hget : vs[seen e.1]? with
      | some x =>
        rw [List.filter_cons, List.filter_cons]
        simp [hl, ih (bump seen e.1)]
      | none =>
        rw [List.filter_cons]
        simp [hl, ih (bump seen e.1)]

/-- No entry of the appended leftover section has an untouched key. -/
theorem flatMap_untouched (values : List (String × List String))
    (c : String → Nat) :
    (values.flatMap (fun p =>
      (p.2.drop (c p.1)).map (fun v => (p.1, v)))).filter
        (fun e => (lookupQ values e.1).isNone) = [] := by
  rw [List.filter_eq_nil_iff]
  intro a ha
  obtain ⟨p, hp, hap⟩ := List.mem_flatMap.mp ha
  obtain ⟨v, _, hv⟩ := List.mem_map.mp hap
  have h1 : (lookupQ values a.1).isSome = true := by
    rw [← hv]
    exact lookupQ_isSome_of_mem values p hp
  simp only [Option.isNone_iff_eq_none]
  obtain ⟨w, hw⟩ := Option.isSome_iff_exists.mp h1
  intro hc
  rw [hc] at hw
  cases hw

/-- On the own-property model, the merge/update `setInternal` — the target
of `set` for one key and `setObj` for many — (1) equals the
specification's single-walk occurrence-indexed description, in which each
updated key's i-th original occurrence is replaced in place by the i-th new
value, occurrences beyond the new values are dropped, and surplus new
values are appended at the very end grouped by key in mapping order;
(2) gives each updated key exactly its new values, in order, as its
occurrences; and (3) keeps entries of keys outside the mapping in their
original relative positions and order.  This is the intended semantics;
`setInternal_proto_key_code_bug` shows the source deviates from part (3)
on sequence keys that collide with `Object.prototype` members, and
`setInternalJS_eq_setInternal` proves the source agrees with this model on
prototype-safe keys. -/
theorem setInternal_merge_spec (sp : List (String × String))
    (values : List (String × List String))
    (hnd : (values.map Prod.fst).Nodup) :
    setInternal sp values = specSetInternal sp values ∧
    (∀ p ∈ values, getAllValues (setInternal sp values) p.1 = p.2) ∧
    (setInternal sp values).filter (fun e => (lookupQ values e.1).isNone) =
      sp.filter (fun e => (lookupQ values e.1).isNone) := by
  have href := setInternal_eq_specSetInternal sp values hnd
  refine ⟨href, ?_, ?_⟩
  · intro p hp
    obtain ⟨k, vs⟩ := p
    have hl : lookupQ values k = some vs :=
      lookupQ_of_mem_nodup values k vs hnd hp
    rw [href]
    unfold specSetInternal
    rw [getAllValues_append,
      getAllValues_specWalk values k vs hl sp (fun _ => 0),
      getAllValues_flatMap_drop k vs values (fun k2 => countKey sp k2) hnd hp]
    simp [List.take_append_drop]
  · rw [href]
    unfold specSetInternal
    rw [List.filter_append, specWalk_untouched values sp (fun _ => 0),
      flatMap_untouched values (fun k2 => countKey sp k2)]
    simp

/-- Concrete instance of the own-property merge semantics at the
repository's multi-value test: growing `tag` from three to four values
keeps the interleaved `other` entry in place and appends only the surplus
value at the end. -/
theorem setInternal_merge_spec_witness :
    setInternal
        [("tag", "first"), ("other", "hey"), ("tag", "second"), ("tag", "third")]
        [("tag", ["first", "second", "third", "fourth"])] =
      [("tag", "first"), ("other", "hey"), ("tag", "second"),
        ("tag", "third"), ("tag", "fourth")] ∧
    (setInternal
        [("tag", "first"), ("other", "hey"), ("tag", "second"), ("tag", "third")]
        [("tag", ["first", "second", "third", "fourth"])] =
      specSetInternal
        [("tag", "first"), ("other", "hey"), ("tag", "second"), ("tag", "third")]
        [("tag", ["first", "second", "third", "fourth"])] ∧
     (∀ p ∈ [("tag", ["first", "second", "third", "fourth"])],
        getAllValues (setInternal
          [("tag", "first"), ("other", "hey"), ("tag", "second"), ("tag", "third")]
          [("tag", ["first", "second", "third", "fourth"])]) p.1 = p.2) ∧
     (setInternal
        [("tag", "first"), ("other", "hey"), ("tag", "second"), ("tag", "third")]
        [("tag", ["first", "second", "third", "fourth"])]).filter
          (fun e => (lookupQ [("tag", ["first", "second", "third", "fourth"])] e.1).isNone) =
       [("tag", "first"), ("other", "hey"), ("tag", "second"), ("tag", "third")].filter
          (fun e => (lookupQ [("tag", ["first", "second", "third", "fourth"])] e.1).isNone)) :=
  ⟨by decide,
   setInternal_merge_spec
     [("tag", "first"), ("other", "hey"), ("tag", "second"), ("tag", "third")]
     [("tag", ["first", "second", "third", "fourth"])]
     (by decide)⟩

/-- Result of the JavaScript property read `queues[key]` on the plain
queues object built by `Object.fromEntries`: an own data property holding
the key's queue, an inherited `Object.prototype` method of a given arity
(`Function.length`), the inherited `__proto__` accessor (whose getter
returns the prototype object), or `undefined`. -/
inductive JsPropRead where
  | own (queue : List String)
  | protoMethod (arity : Nat)
  | protoAccessor
  | missing
deriving Repr

/-- The `Function.length` of each inherited `Object.prototype` method, by
property name: `toString`, `toLocaleString` and `valueOf` have arity 0;
`hasOwnProperty`, `isPrototypeOf`, `propertyIsEnumerable`,
`__lookupGetter__`, `__lookupSetter__` and `constructor` (the `Object`
function) have arity 1; `__defineGetter__` and `__defineSetter__` have
arity 2.  Every other name (apart from the `__proto__` accessor, handled
separately) is absent from `Object.prototype`. -/
def objectProtoMethodArity (k : String) : Option Nat :=
  if k = "toString" ∨ k = "toLocaleString" ∨ k = "valueOf" then some 0
  else if k = "hasOwnProperty" ∨ k = "isPrototypeOf" ∨
      k = "propertyIsEnumerable" ∨ k = "__lookupGetter__" ∨
      k = "__lookupSetter__" ∨ k = "constructor" then some 1
  else if k = "__defineGetter__" ∨ k = "__defineSetter__" then some 2
  else none

/-- The faithful JavaScript read `queues[key]`: an own property wins,
otherwise the prototype chain supplies the inherited `Object.prototype`
member, otherwise the read is `undefined`. -/
def jsRead (qs : List (String × List String)) (k : String) : JsPropRead :=
  match lookupQ qs k with
  | some q => .own q
  | none =>
    if k = "__proto__" then .protoAccessor
    else
      match objectProtoMethodArity k with
      | some n => .protoMethod n
      | none => .missing

/-- The walk of the source's `setInternal` with the faithful
prototype-chain read.  An inherited method of arity 0 (for example
`Object.prototype.toString`) passes the `queue.length === 0` test, so the
entry is silently dropped like an exhausted queue; an inherited member
whose `length` is not `0` (arity ≥ 1 methods, or the `__proto__` accessor
returning an object with no `length`) reaches `queue.shift()` and throws a
`TypeError`. -/
def walkJS : List (String × String) → List (String × List String) →
    Except String (List (String × String) × List (String × List String))
  | [], qs => .ok ([], qs)
  | e :: rest, qs =>
    match jsRead qs e.1 with
    | .missing =>
      (walkJS rest qs).map (fun r => (e :: r.1, r.2))
    | .own [] => walkJS rest qs
    | .own (x :: xt) =>
      (walkJS rest (updateQ qs e.1 xt)).map
        (fun r => ((e.1, x) :: r.1, r.2))
    | .protoMethod 0 => walkJS rest qs
    | .protoMethod (_ + 1) =>
      .error "TypeError: queue.shift is not a function"
    | .protoAccessor =>
      .error "TypeError: queue.shift is not a function"

/-- The source's `setInternal` under the faithful prototype-chain read;
`Except.error` models an uncaught `TypeError`. -/
def setInternalJS (sp : List (String × String))
    (values : List (String × List String)) :
    Except String (List (String × String)) :=
  (walkJS sp values).map
    (fun r => r.1 ++ r.2.flatMap (fun p => p.2.map (fun v => (p.1, v))))

/-- The source's `set` under the faithful prototype-chain read. -/
def setJS {α : Type} (sp : List (String × String)) (name : String)
    (dt : TDatatype α) (value : α) :
    Except String (List (String × String)) :=
  setInternalJS sp [(name, dt.serialize value)]

/-- The faithful JavaScript plain-object assignment
`nextValues[name] = v`: assigning to `__proto__` invokes the inherited
`Object.prototype.__proto__` setter and creates no own property, so the
record is unchanged; otherwise an existing own key is overwritten in place
and a new key is appended. -/
def setRecordField (m : List (String × List String)) (name : String)
    (v : List String) : List (String × List String) :=
  if name = "__proto__" then m
  else if (m.find? (fun p => p.1 = name)).isSome then
    m.map (fun p => if p.1 = name then (p.1, v) else p)
  else m ++ [(name, v)]

/-- The serialization loop of the source's `setObj` with the faithful
record write.  A field whose name collides with an `Object.prototype`
member but has no own schema entry slips past the `undefined` check and
then throws a `TypeError` at `type.serialize`. -/
def serializeFieldsJS {α : Type} (obj : List (String × TDatatype α)) :
    List (String × α) → List (String × List String) →
    Except String (List (String × List String))
  | [], acc => .ok acc
  | (name, value) :: rest, acc =>
    match lookupDt obj name with
    | some t => serializeFieldsJS obj rest (setRecordField acc name (t.serialize value))
    | none =>
      if name = "__proto__" ∨ (objectProtoMethodArity name).isSome = true then
        .error "TypeError: type.serialize is not a function"
      else
        .error ("Type for \"" ++ name ++ "\" not found in object")

/-- The source's `setObj` under the faithful record write and
prototype-chain read. -/
def setObjJS {α : Type} (sp : List (String × String))
    (obj : List (String × TDatatype α)) (values : List (String × α)) :
    Except String (List (String × String)) :=
  match serializeFieldsJS obj values [] with
  | .error e => .error e
  | .ok nextValues => setInternalJS sp nextValues

theorem updateQ_map_fst (qs : List (String × List String)) (k : String)
    (v : List String) :
    (updateQ qs k v).map Prod.fst = qs.map Prod.fst := by
  unfold updateQ
  rw [List.map_map]
  apply List.map_congr_left
  intro p hp
  by_cases h : p.1 = k <;> simp [Function.comp, h]

theorem lookupQ_isSome_iff (qs : List (String × List String)) (k : String) :
    (lookupQ qs k).isSome = true ↔ k ∈ qs.map Prod.fst := by
  unfold lookupQ
  cases hf : List.find? (fun p => p.1 = k) qs with
  | none =>
    simp only [Option.map_none', Option.isSome_none]
    constructor
    · intro hc
      cases hc
    · intro hm
      obtain ⟨p, hp, hpk⟩ := List.mem_map.mp hm
      have h2 := List.find?_eq_none.mp hf p hp
      exact absurd (by simp [hpk]) h2
  | some p =>
    simp only [Option.map_some', Option.isSome_some]
    constructor
    · intro _
      have hp := List.mem_of_find?_eq_some hf
      have hpk : p.1 = k := by simpa using List.find?_some hf
      exact hpk ▸ List.mem_map_of_mem Prod.fst hp
    · intro _
      trivial

theorem lookupQ_updateQ_isSome (qs : List (String × List String))
    (k k' : String) (v : List String) :
    (lookupQ (updateQ qs k v) k').isSome = (lookupQ qs k').isSome := by
  rw [Bool.eq_iff_iff, lookupQ_isSome_iff, lookupQ_isSome_iff,
    updateQ_map_fst]

/-- On a sequence whose keys are each either updated by the mapping or free
of any collision with an `Object.prototype` member, the faithful
prototype-chain walk never throws and agrees with the own-property walk:
the source implements the intended merge exactly on prototype-safe keys. -/
theorem walkJS_eq_walk :
    ∀ (sp : List (String × String)) (qs : List (String × List String)),
      (∀ e ∈ sp, (lookupQ qs e.1).isSome = true ∨
        (objectProtoMethodArity e.1 = none ∧ ¬ e.1 = "__proto__")) →
      walkJS sp qs = .ok (walk sp qs) := by
  intro sp
  induction sp with
  | nil =>
    intro qs _
    rfl
  | cons e rest ih =>
    intro qs h
    cases hl : lookupQ qs e.1 with
    | some q =>
      have hr : jsRead qs e.1 = .own q := by
        unfold jsRead
        rw [hl]
      cases q with
      | nil =>
        have h1 : walkJS (e :: rest) qs = walkJS rest qs := by
          simp only [walkJS, hr]
        have h2 : walk (e :: rest) qs = walk rest qs := by
          simp only [walk, hl]
        rw [h1, h2]
        exact ih qs (fun e2 he2 => h e2 (List.mem_cons_of_mem e he2))
      | cons x xt =>
        have h1 : walkJS (e :: rest) qs =
            (walkJS rest (updateQ qs e.1 xt)).map
              (fun r => ((e.1, x) :: r.1, r.2)) := by
          simp only [walkJS, hr]
        have h2 : walk (e :: rest) qs =
            ((e.1, x) :: (walk rest (updateQ qs e.1 xt)).1,
              (walk rest (updateQ qs e.1 xt)).2) := by
          simp only [walk, hl]
        have h3 := ih (updateQ qs e.1 xt) (fun e2 he2 => by
          rcases h e2 (List.mem_cons_of_mem e he2) with hs | hp2
          · exact Or.inl (by rw [lookupQ_updateQ_isSome]; exact hs)
          · exact Or.inr hp2)
        rw [h1, h3, h2]
        rfl
    | none =>
      have hp : objectProtoMethodArity e.1 = none ∧ ¬ e.1 = "__proto__" := by
        rcases h e (List.mem_cons_self e rest) with hs | hp2
        · rw [hl] at hs
          cases hs
        · exact hp2
      have hr : jsRead qs e.1 = .missing := by
        unfold jsRead
        rw [hl, if_neg hp.2, hp.1]
      have h1 : walkJS (e :: rest) qs =
          (walkJS rest qs).map (fun r => (e :: r.1, r.2)) := by
        simp only [walkJS, hr]
      have h2 : walk (e :: rest) qs =
          (e :: (walk rest qs).1, (walk rest qs).2) := by
        simp only [walk, hl]
      have h3 := ih qs (fun e2 he2 => h e2 (List.mem_cons_of_mem e he2))
      rw [h1, h3, h2]
      rfl

/-- On prototype-safe keys the faithful `setInternal` agrees with the
own-property model, so the intended merge results proved above describe
the source exactly there. -/
theorem setInternalJS_eq_setInternal (sp : List (String × String))
    (values : List (String × List String))
    (h : ∀ e ∈ sp, (lookupQ values e.1).isSome = true ∨
      (objectProtoMethodArity e.1 = none ∧ ¬ e.1 = "__proto__")) :
    setInternalJS sp values = .ok (setInternal sp values) := by
  unfold setInternalJS setInternal
  rw [walkJS_eq_walk sp values h]
  rfl

/-- Concrete instance of the prototype-safe agreement, at the repository's
basic `set` test. -/
theorem setInternalJS_eq_setInternal_witness :
    setInternalJS [("a", "1"), ("b", "2"), ("c", "hey")] [("a", ["3"])] =
      .ok (setInternal [("a", "1"), ("b", "2"), ("c", "hey")]
        [("a", ["3"])]) :=
  setInternalJS_eq_setInternal [("a", "1"), ("b", "2"), ("c", "hey")]
    [("a", ["3"])] (by decide)

/-- C1 (code bug): evaluated at the failing input — the sequence
`toString=x&a=1` with the single-key mapping of `set("a", ..., "b")` — the
source's merge silently drops the untouched `toString` entry: the queues
object inherits `Object.prototype.toString`, a function whose `length` is
`0`, so the entry is treated as an exhausted queue, violating the claimed
preservation of keys not in the mapping; a key such as `hasOwnProperty`
(inherited arity 1) instead crashes at `queue.shift()`.  The intended
behavior, which the spec states and `setInternal` satisfies, keeps the
entry. -/
theorem setInternal_proto_key_code_bug :
    setInternalJS [("toString", "x"), ("a", "1")] [("a", ["b"])] =
      .ok [("a", "b")] ∧
    getAllValues [("a", "b")] "toString" = [] ∧
    setInternal [("toString", "x"), ("a", "1")] [("a", ["b"])] =
      [("toString", "x"), ("a", "b")] ∧
    setInternalJS [("hasOwnProperty", "x")] [("a", ["b"])] =
      .error "TypeError: queue.shift is not a function" :=
  ⟨rfl, rfl, rfl, rfl⟩

/-- C2 (code bug): evaluated at the failing input — the sequence
`toString=x` with `set("a", rString, null)`, whose serialization is the
empty list — the source drops the untouched `toString=x` entry (inherited
`Object.prototype.toString` has `length` `0`) and returns the empty
sequence, while `delete("a")` keeps the entry, so `set` with an empty
serialization is not equal to `delete` in the source, contrary to the
claim and to the intended semantics that `setParam` satisfies. -/
theorem set_empty_proto_key_code_bug :
    rString.serialize none = [] ∧
    setJS [("toString", "x")] "a" rString none = .ok [] ∧
    del [("toString", "x")] "a" = [("toString", "x")] :=
  ⟨rfl, rfl, rfl⟩

/-- C8 (code bug): evaluated at the failing input — a schema holding an own
`__proto__` entry and a supplied field named `__proto__` over the sequence
`a=1` — every supplied field has a schema entry, yet the assignment
`nextValues["__proto__"] = serialized` invokes the inherited
`Object.prototype.__proto__` setter, creates no own property, and the
field is silently never submitted: the combined mapping handed to the
merge is empty and the sequence is returned unchanged, contrary to the
claim that all serialized fields are submitted. -/
theorem setObj_proto_field_code_bug :
    lookupDt [("__proto__", rString)] "__proto__" = some rString ∧
    serializeFieldsJS [("__proto__", rString)] [("__proto__", some "x")] []
      = .ok [] ∧
    setObjJS [("a", "1")] [("__proto__", rString)] [("__proto__", some "x")]
      = .ok [("a", "1")] :=
  ⟨rfl, rfl, rfl⟩
